import Mathlib

/-!
Verification of the fuzzy temperature-control program `src/tempcontrol.py`.

The program instantiates a Mamdani fuzzy inference engine (scikit-fuzzy)
with triangular membership functions over universes discretized as
`np.arange(0, 101, 1)`, a nine-rule base, and centroid defuzzification.
The engine itself lives in the `skfuzzy` library, outside this repository's
sources; it is modelled here from the specification.  The shapes, the rule
base, and the grid-sweep loop are translated from `src/tempcontrol.py`.
All arithmetic is carried out over `ℚ`: every concrete quantity in the
program (universe points, membership parameters, crisp inputs of the grid
sweep) is rational, and the Mamdani pipeline maps rationals to rationals.
-/

namespace TempControl

/-- Modelled from the spec: triangular membership function `fuzz.trimf`
with parameters `(a, b, c)` (not part of `src/`, only called there).
Degree is 0 if `x ≤ a` or `x ≥ c`, `(x−a)/(b−a)` on the rising edge
`a < x < b`, `(c−x)/(c−b)` on the falling edge `b < x < c`, and 1 at
`x = b`; a degenerate side (`b = a` or `c = b`) is a vertical edge, so the
degree jumps directly to 1 at the peak. -/
def trimf (a b c x : ℚ) : ℚ :=
  if x = b then 1
  else if a < x ∧ x < b then (x - a) / (b - a)
  else if b < x ∧ x < c then (c - x) / (c - b)
  else 0

/-- The membership degree of any triangular shape is nonnegative. -/
lemma trimf_nonneg (a b c x : ℚ) : 0 ≤ trimf a b c x := by
  unfold trimf
  split_ifs with h1 h2 h3
  · norm_num
  · exact div_nonneg (by linarith [h2.1]) (by linarith [h2.1, h2.2])
  · exact div_nonneg (by linarith [h3.2]) (by linarith [h3.1, h3.2])
  · exact le_refl 0

/-- The membership degree of any triangular shape is at most 1. -/
lemma trimf_le_one (a b c x : ℚ) : trimf a b c x ≤ 1 := by
  unfold trimf
  split_ifs with h1 h2 h3
  · norm_num
  · have hba : 0 < b - a := by linarith [h2.1, h2.2]
    rw [div_le_one hba]; linarith [h2.2]
  · have hcb : 0 < c - b := by linarith [h3.1, h3.2]
    rw [div_le_one hcb]; linarith [h3.1]
  · norm_num

/-! ### The program's membership functions (src/tempcontrol.py lines 33-53) -/

/-- Temperature term `Cold`: `fuzz.trimf(universe, [0, 0, 50])`. -/
def cold : ℚ → ℚ := trimf 0 0 50

/-- Temperature term `Warm`: `fuzz.trimf(universe, [25, 50, 75])`. -/
def warm : ℚ → ℚ := trimf 25 50 75

/-- Temperature term `Hot`: `fuzz.trimf(universe, [50, 100, 100])`. -/
def hot : ℚ → ℚ := trimf 50 100 100

/-- Humidity term `Dry`: `fuzz.trimf(universe, [0, 0, 50])`. -/
def dry : ℚ → ℚ := trimf 0 0 50

/-- Humidity term `Comfort`: `fuzz.trimf(universe, [25, 50, 75])`. -/
def comfort : ℚ → ℚ := trimf 25 50 75

/-- Humidity term `Wet`: `fuzz.trimf(universe, [50, 100, 100])`. -/
def wet : ℚ → ℚ := trimf 50 100 100

/-- Fan-speed term `Low`: `fuzz.trimf(universe, [0, 0, 50])`. -/
def low : ℚ → ℚ := trimf 0 0 50

/-- Fan-speed term `Medium`: `fuzz.trimf(universe, [25, 50, 75])`. -/
def medium : ℚ → ℚ := trimf 25 50 75

/-- Fan-speed term `High`: `fuzz.trimf(universe, [50, 100, 100])`. -/
def high : ℚ → ℚ := trimf 50 100 100

/-! ### Rule expressions (antecedent trees) -/

/-- Modelled from the spec: a rule antecedent is a boolean-algebra tree over
`(variable, term)` atoms combined with AND/OR/NOT (`ctrl.Rule` antecedents in
the source are built with `&`; the engine also offers `|` and `~`). -/
inductive RuleExpr where
  | atom (v t : String)
  | and (l r : RuleExpr)
  | or (l r : RuleExpr)
  | not (e : RuleExpr)
deriving DecidableEq, Repr

/-- Modelled from the spec: bottom-up evaluation of a rule-expression tree
against a registry `fz` of fuzzified degrees (`fz v t x` is the membership
degree of crisp value `x` in term `t` of variable `v`) and a crisp-input
context.  `And` is `min`, `Or` is `max`, `Not` is `1 − ·` (Zadeh algebra);
an atom is the fuzzified degree of its variable's input under its term. -/
def RuleExpr.evaluate (fz : String → String → ℚ → ℚ) (input : String → ℚ) :
    RuleExpr → ℚ
  | .atom v t => fz v t (input v)
  | .and l r => min (l.evaluate fz input) (r.evaluate fz input)
  | .or l r => max (l.evaluate fz input) (r.evaluate fz input)
  | .not e => 1 - e.evaluate fz input

/-- The registry of the program's input variables and their terms
(src/tempcontrol.py lines 19-22 and 33-45): variable `temperature` carries
terms `Cold`, `Warm`, `Hot`; variable `humidity` carries `Dry`, `Comfort`,
`Wet`.  Unregistered names evaluate to the constant 0 (never reached by the
program's rule base). -/
def fanFuzz (v t : String) : ℚ → ℚ :=
  if v = "temperature" then
    if t = "Cold" then cold
    else if t = "Warm" then warm
    else if t = "Hot" then hot
    else fun _ => 0
  else if v = "humidity" then
    if t = "Dry" then dry
    else if t = "Comfort" then comfort
    else if t = "Wet" then wet
    else fun _ => 0
  else fun _ => 0

/-- The registry of the output variable `fan_speed` and its terms
(src/tempcontrol.py lines 25 and 49-53). -/
def fanMF (t : String) : ℚ → ℚ :=
  if t = "Low" then low
  else if t = "Medium" then medium
  else if t = "High" then high
  else fun _ => 0

/-- Modelled from the spec: a rule pairs an antecedent expression with a
consequent term of the output variable `fan_speed` (`ctrl.Rule(antecedent,
fan_speed[term])`). -/
structure Rule where
  antecedent : RuleExpr
  consequent : String
deriving DecidableEq, Repr

/-- Rule 1 (src line 79): Cold temperature AND Dry humidity → Low fan speed. -/
def rule1 : Rule := ⟨.and (.atom "temperature" "Cold") (.atom "humidity" "Dry"), "Low"⟩

/-- Rule 2 (src line 82): Cold AND Comfort → Low. -/
def rule2 : Rule := ⟨.and (.atom "temperature" "Cold") (.atom "humidity" "Comfort"), "Low"⟩

/-- Rule 3 (src line 85): Cold AND Wet → Medium. -/
def rule3 : Rule := ⟨.and (.atom "temperature" "Cold") (.atom "humidity" "Wet"), "Medium"⟩

/-- Rule 4 (src line 88): Warm AND Dry → Low. -/
def rule4 : Rule := ⟨.and (.atom "temperature" "Warm") (.atom "humidity" "Dry"), "Low"⟩

/-- Rule 5 (src line 91): Warm AND Comfort → Medium. -/
def rule5 : Rule := ⟨.and (.atom "temperature" "Warm") (.atom "humidity" "Comfort"), "Medium"⟩

/-- Rule 6 (src line 94): Warm AND Wet → High. -/
def rule6 : Rule := ⟨.and (.atom "temperature" "Warm") (.atom "humidity" "Wet"), "High"⟩

/-- Rule 7 (src line 97): Hot AND Dry → Medium. -/
def rule7 : Rule := ⟨.and (.atom "temperature" "Hot") (.atom "humidity" "Dry"), "Medium"⟩

/-- Rule 8 (src line 100): Hot AND Comfort → High. -/
def rule8 : Rule := ⟨.and (.atom "temperature" "Hot") (.atom "humidity" "Comfort"), "High"⟩

/-- Rule 9 (src line 103): Hot AND Wet → High. -/
def rule9 : Rule := ⟨.and (.atom "temperature" "Hot") (.atom "humidity" "Wet"), "High"⟩

/-- The rule base handed to `ctrl.ControlSystem` (src lines 110-111). -/
def ruleBase : List Rule :=
  [rule1, rule2, rule3, rule4, rule5, rule6, rule7, rule8, rule9]

/-! ### The inference engine (modelled from the spec, §4.4-§4.5) -/

/-- Modelled from the spec: the error kinds the engine can report (§7).
Only `noActiveRules` and `missingInput` are reachable in this program's
configuration; the others arise at model-build time. -/
inductive FuzzyError where
  | unknownTerm
  | duplicateTerm
  | missingInput
  | invalidRuleBase
  | noActiveRules
deriving DecidableEq, Repr

/-- The crisp-input context of the program's simulation: the two inputs
`temperature` and `humidity` (src lines 125-126). -/
def inputOf (t h : ℚ) : String → ℚ :=
  fun v => if v = "temperature" then t else if v = "humidity" then h else 0

/-- Modelled from the spec: a rule's firing strength is its antecedent's
evaluation against the crisp inputs (weight 1, the default, in this
program). -/
def fireStrength (r : Rule) (t h : ℚ) : ℚ :=
  r.antecedent.evaluate fanFuzz (inputOf t h)

/-- Modelled from the spec: Mamdani clip-then-max aggregation.  The
aggregated membership of the output variable at universe point `x` is the
maximum over all rules of `min(firing strength, consequent degree at x)`,
starting from the zeroed working curve. -/
def aggregate (rules : List Rule) (t h x : ℚ) : ℚ :=
  (rules.map (fun r => min (fireStrength r t h) (fanMF r.consequent x))).foldr max 0

/-- Modelled from the spec: numerator `Σ x·curve(x)` of the centroid over the
discretized universe `np.arange(0, 101, 1)`. -/
def centroidNum (curve : ℚ → ℚ) : ℚ :=
  ∑ n ∈ Finset.range 101, (n : ℚ) * curve n

/-- Modelled from the spec: denominator `Σ curve(x)` of the centroid over the
discretized universe. -/
def centroidDen (curve : ℚ → ℚ) : ℚ :=
  ∑ n ∈ Finset.range 101, curve n

/-- Modelled from the spec: centroid defuzzification of an aggregated curve;
fails with `NoActiveRules` when the denominator is exactly zero instead of
returning a number. -/
def centroidE (curve : ℚ → ℚ) : Except FuzzyError ℚ :=
  if centroidDen curve = 0 then .error .noActiveRules
  else .ok (centroidNum curve / centroidDen curve)

/-- Modelled from the spec: a full evaluation of the control system built
from `rules` at crisp inputs `(t, h)` — fire all rules, aggregate the
clipped consequents on `fan_speed`, defuzzify by centroid. -/
def computeSystem (rules : List Rule) (t h : ℚ) : Except FuzzyError ℚ :=
  centroidE (aggregate rules t h)

/-- Modelled from the spec: the mutable state of `ctrl.ControlSystemSimulation`
(src line 114) — the working aggregation buffer of the consequent variable
`fan_speed`, rebuilt on every evaluation. -/
structure SimState where
  buffer : ℚ → ℚ

/-- Modelled from the spec: the zeroed working curve installed by
`reset_aggregation()` at the start of every evaluation (§4.5 step 2). -/
def resetAgg : ℚ → ℚ := fun _ => 0

/-- Modelled from the spec: `fan_simulation.compute()` (src line 129) — reset
the consequent's aggregation buffer, fire every rule of the rule base into
it, then defuzzify; returns the per-call result and the post-call state. -/
def SimState.compute (t h : ℚ) (_s : SimState) :
    Except FuzzyError ℚ × SimState :=
  let buf : ℚ → ℚ := fun x =>
    (ruleBase.map (fun r => min (fireStrength r t h) (fanMF r.consequent x))).foldr
      max (resetAgg x)
  (centroidE buf, ⟨buf⟩)

/-- Modelled from the spec: per-output-variable defuzzification (§4.5 step 4)
— each output variable's aggregated curve is defuzzified independently, and a
`NoActiveRules` failure of one variable does not abort the others. -/
def defuzzAll (outs : List (String × (ℚ → ℚ))) :
    List (String × Except FuzzyError ℚ) :=
  outs.map (fun p => (p.1, centroidE p.2))

/-! ### The grid sweep (src/tempcontrol.py lines 162-171) -/

/-- The body of the control-surface grid loop (src lines 164-171): evaluate
the simulation at one grid point and store the crisp output, but on ANY
failure store `0` (the bare `except:` clause), discarding the error. -/
def sweepEntry (evalPoint : ℚ → ℚ → Except FuzzyError ℚ) (t h : ℚ) : ℚ :=
  match evalPoint t h with
  | .ok v => v
  | .error _ => 0

/-- The full control-surface sweep (src lines 162-171): the cartesian product
of the temperature and humidity ranges, row by row. -/
def sweepGrid (evalPoint : ℚ → ℚ → Except FuzzyError ℚ)
    (ts hs : List ℚ) : List (List ℚ) :=
  ts.map (fun t => hs.map (fun h => sweepEntry evalPoint t h))

/-! ### Basic bounds -/

/-- Every degree served by the input registry lies in `[0, 1]`. -/
lemma fanFuzz_bounds (v t : String) (x : ℚ) :
    0 ≤ fanFuzz v t x ∧ fanFuzz v t x ≤ 1 := by
  unfold fanFuzz
  split_ifs <;>
    first
      | exact ⟨trimf_nonneg _ _ _ _, trimf_le_one _ _ _ _⟩
      | exact ⟨le_refl 0, by norm_num⟩

/-- Every degree served by the output registry lies in `[0, 1]`. -/
lemma fanMF_bounds (t : String) (x : ℚ) :
    0 ≤ fanMF t x ∧ fanMF t x ≤ 1 := by
  unfold fanMF
  split_ifs <;>
    first
      | exact ⟨trimf_nonneg _ _ _ _, trimf_le_one _ _ _ _⟩
      | exact ⟨le_refl 0, by norm_num⟩

/-- Rule-expression evaluation stays in `[0, 1]` whenever the registry does. -/
lemma evaluate_bounds (fz : String → String → ℚ → ℚ) (input : String → ℚ)
    (hfz : ∀ v t x, 0 ≤ fz v t x ∧ fz v t x ≤ 1) (e : RuleExpr) :
    0 ≤ e.evaluate fz input ∧ e.evaluate fz input ≤ 1 := by
  induction e with
  | atom v t => exact hfz v t _
  | and l r ihl ihr =>
      exact ⟨le_min ihl.1 ihr.1, le_trans (min_le_left _ _) ihl.2⟩
  | or l r ihl ihr =>
      exact ⟨le_trans ihl.1 (le_max_left _ _), max_le ihl.2 ihr.2⟩
  | not e ih =>
      simp only [RuleExpr.evaluate]
      exact ⟨by linarith [ih.2], by linarith [ih.1]⟩

/-- Firing strengths of the program's rules lie in `[0, 1]`. -/
lemma fireStrength_bounds (r : Rule) (t h : ℚ) :
    0 ≤ fireStrength r t h ∧ fireStrength r t h ≤ 1 :=
  evaluate_bounds fanFuzz (inputOf t h) fanFuzz_bounds r.antecedent

/-! ### Claim theorems -/

/-- C1: for a triangular membership function with parameters `(a, b, c)`,
`a ≤ b ≤ c`, and every `x`, the degree is 1 at `x = b`; `(x−a)/(b−a)` on
`a < x < b`; `(c−x)/(c−b)` on `b < x < c`; and 0 when `x ≤ a` or `x ≥ c`
except at a degenerate peak (`b = a` or `c = b`), where the side is a
vertical edge and the degree jumps directly to 1. -/
theorem trimf_piecewise (a b c x : ℚ) (hab : a ≤ b) (hbc : b ≤ c) :
    (x = b → trimf a b c x = 1) ∧
    ((x ≤ a ∨ c ≤ x) → x ≠ b → trimf a b c x = 0) ∧
    (a < x → x < b → trimf a b c x = (x - a) / (b - a)) ∧
    (b < x → x < c → trimf a b c x = (c - x) / (c - b)) := by
  refine ⟨fun hxb => ?_, fun hout hxb => ?_, fun hax hxb => ?_, fun hbx hxc => ?_⟩
  · simp [trimf, hxb]
  · unfold trimf
    rw [if_neg hxb, if_neg, if_neg]
    · rintro ⟨h1, h2⟩
      rcases hout with hxa | hcx
      · linarith
      · linarith
    · rintro ⟨h1, h2⟩
      rcases hout with hxa | hcx
      · linarith
      · linarith
  · unfold trimf
    rw [if_neg (ne_of_lt hxb), if_pos ⟨hax, hxb⟩]
  · unfold trimf
    rw [if_neg (ne_of_gt hbx), if_neg (fun hc => lt_irrefl x (lt_trans hc.2 hbx)),
      if_pos ⟨hbx, hxc⟩]

/-- Witness for C1 on the program's shapes: `trimf(0,0,50)` (a degenerate
left edge) takes value 1 at its peak 0, value `(50−20)/(50−0)` at 20, and 0
at 60; `trimf(25,50,75)` takes value `(30−25)/(50−25)` at 30. -/
theorem trimf_piecewise_witness :
    trimf 0 0 50 0 = 1 ∧ trimf 0 0 50 20 = (50 - 20) / (50 - 0) ∧
      trimf 0 0 50 60 = 0 ∧ trimf 25 50 75 30 = (30 - 25) / (50 - 25) :=
  ⟨(trimf_piecewise 0 0 50 0 (by norm_num) (by norm_num)).1 rfl,
   (trimf_piecewise 0 0 50 20 (by norm_num) (by norm_num)).2.2.2 (by norm_num) (by norm_num),
   (trimf_piecewise 0 0 50 60 (by norm_num) (by norm_num)).2.1 (Or.inr (by norm_num)) (by norm_num),
   (trimf_piecewise 25 50 75 30 (by norm_num) (by norm_num)).2.2.1 (by norm_num) (by norm_num)⟩

/-- C5: every registered term of every linguistic variable of the program
(`temperature`, `humidity`, `fan_speed`) assigns every input a membership
degree in `[0, 1]` — and so does any other `(variable, term)` lookup the
registries can serve. -/
theorem membership_degree_bounds :
    (∀ v t x, 0 ≤ fanFuzz v t x ∧ fanFuzz v t x ≤ 1) ∧
    (∀ t x, 0 ≤ fanMF t x ∧ fanMF t x ≤ 1) :=
  ⟨fanFuzz_bounds, fanMF_bounds⟩

/-- C4: rule-expression evaluation is the min/max (Zadeh) algebra — `And`
is the minimum of the children, `Or` the maximum, `Not` one minus the
child, an `Atom` the fuzzified degree of its variable's crisp input under
its term — and, whenever the registry serves degrees in `[0, 1]`, every
expression evaluates into `[0, 1]`. -/
theorem ruleexpr_zadeh_algebra (fz : String → String → ℚ → ℚ)
    (input : String → ℚ)
    (hfz : ∀ v t x, 0 ≤ fz v t x ∧ fz v t x ≤ 1) :
    (∀ v t, (RuleExpr.atom v t).evaluate fz input = fz v t (input v)) ∧
    (∀ l r, (RuleExpr.and l r).evaluate fz input =
      min (l.evaluate fz input) (r.evaluate fz input)) ∧
    (∀ l r, (RuleExpr.or l r).evaluate fz input =
      max (l.evaluate fz input) (r.evaluate fz input)) ∧
    (∀ e : RuleExpr, (RuleExpr.not e).evaluate fz input =
      1 - e.evaluate fz input) ∧
    (∀ e : RuleExpr, 0 ≤ e.evaluate fz input ∧ e.evaluate fz input ≤ 1) :=
  ⟨fun _ _ => rfl, fun _ _ => rfl, fun _ _ => rfl, fun _ => rfl,
   evaluate_bounds fz input hfz⟩

/-- Witness for C4 on the program's registry: rule 1's antecedent
`Cold(temperature) AND Dry(humidity)` evaluates at inputs `(30, 70)` to the
minimum of the two atom degrees, and the result lies in `[0, 1]`. -/
theorem ruleexpr_zadeh_algebra_witness :
    (rule1.antecedent.evaluate fanFuzz (inputOf 30 70) =
      min ((RuleExpr.atom "temperature" "Cold").evaluate fanFuzz (inputOf 30 70))
        ((RuleExpr.atom "humidity" "Dry").evaluate fanFuzz (inputOf 30 70))) ∧
    (0 ≤ rule1.antecedent.evaluate fanFuzz (inputOf 30 70) ∧
      rule1.antecedent.evaluate fanFuzz (inputOf 30 70) ≤ 1) :=
  ⟨(ruleexpr_zadeh_algebra fanFuzz (inputOf 30 70) fanFuzz_bounds).2.1
      (.atom "temperature" "Cold") (.atom "humidity" "Dry"),
   (ruleexpr_zadeh_algebra fanFuzz (inputOf 30 70) fanFuzz_bounds).2.2.2.2
      rule1.antecedent⟩

/-- Folding `max` over a list is invariant under permutation. -/
lemma foldr_max_perm {l₁ l₂ : List ℚ} (hp : l₁.Perm l₂) (a : ℚ) :
    l₁.foldr max a = l₂.foldr max a := by
  induction hp with
  | nil => rfl
  | cons x _ ih => simp only [List.foldr_cons, ih]
  | swap x y l => simp only [List.foldr_cons, max_left_comm]
  | trans _ _ ih₁ ih₂ => rw [ih₁, ih₂]

set_option maxRecDepth 4000 in
/-- C7: an evaluation of the simulation resets the consequent's aggregation
buffer before use, so the crisp result is independent of whatever state an
earlier evaluation left behind: computing from any two states gives the
same output, and in particular two successive `compute` calls with the same
inputs produce identical outputs. -/
theorem compute_deterministic (t h : ℚ) (s₁ s₂ : SimState) :
    (SimState.compute t h s₁).1 = (SimState.compute t h s₂).1 ∧
    (SimState.compute t h s₁).1 =
      (SimState.compute t h (SimState.compute t h s₁).2).1 :=
  ⟨rfl, rfl⟩

/-- C8: when an output variable's aggregated curve sums to exactly zero over
the universe, centroid defuzzification reports `NoActiveRules` instead of
returning a number, and the failure is confined to that variable: every
other output variable in the same defuzzification pass still gets its own
centroid result. -/
theorem centroid_no_active_rules (name : String) (curve : ℚ → ℚ)
    (hzero : centroidDen curve = 0)
    (pre post : List (String × (ℚ → ℚ))) :
    centroidE curve = .error .noActiveRules ∧
    defuzzAll (pre ++ (name, curve) :: post) =
      defuzzAll pre ++ (name, Except.error FuzzyError.noActiveRules) ::
        defuzzAll post := by
  have h1 : centroidE curve = .error .noActiveRules := by
    unfold centroidE
    rw [if_pos hzero]
  refine ⟨h1, ?_⟩
  unfold defuzzAll
  simp [h1]

/-- Witness for C8: the identically-zero curve (an output variable no rule
references) sums to zero and defuzzifies to `NoActiveRules`, not to a
number. -/
theorem centroid_no_active_rules_witness :
    centroidDen (fun _ => (0 : ℚ)) = 0 ∧
    centroidE (fun _ => (0 : ℚ)) = .error .noActiveRules :=
  have hz : centroidDen (fun _ => (0 : ℚ)) = 0 := by simp [centroidDen]
  ⟨hz, (centroid_no_active_rules "fan_speed" (fun _ => (0 : ℚ)) hz [] []).1⟩

/-- C2 (code bug, src lines 162-171): the grid sweep's bare `except:` clause
coerces ANY evaluation failure into the numeric output 0, discarding the
failure's kind and the grid coordinates.  Under an evaluator failing at
`(0, 0)` with `NoActiveRules` and returning 7 elsewhere, the sweep stores 0
at the failing point and carries on — and the stored grid is identical to
the one produced by an evaluator that genuinely computed 0 there, so the
failure is unobservable in the output. -/
theorem sweep_coerces_failure_to_zero :
    sweepGrid (fun t h => if t = 0 ∧ h = 0 then .error .noActiveRules
      else .ok 7) [0, 5] [0] = [[0], [7]] ∧
    sweepGrid (fun t h => if t = 0 ∧ h = 0 then .ok 0
      else .ok 7) [0, 5] [0] = [[0], [7]] := by
  constructor <;> norm_num [sweepGrid, sweepEntry]

/-- C6: the crisp output of a full evaluation does not depend on the order
in which the rules are fired — permuting the rule base yields the same
result, because clip-then-max aggregation is commutative and associative. -/
theorem compute_rule_order_invariant (rs₁ rs₂ : List Rule)
    (hp : rs₁.Perm rs₂) (t h : ℚ) :
    computeSystem rs₁ t h = computeSystem rs₂ t h := by
  have hagg : aggregate rs₁ t h = aggregate rs₂ t h := by
    funext x
    exact foldr_max_perm
      (hp.map (fun r => min (fireStrength r t h) (fanMF r.consequent x))) 0
  unfold computeSystem
  rw [hagg]

/-- Witness for C6: reversing the program's nine-rule base is a permutation
of it, and the evaluation at inputs `(30, 70)` is unchanged. -/
theorem compute_rule_order_invariant_witness :
    (ruleBase.reverse).Perm ruleBase ∧
    computeSystem ruleBase.reverse 30 70 = computeSystem ruleBase 30 70 :=
  ⟨List.reverse_perm ruleBase,
   compute_rule_order_invariant ruleBase.reverse ruleBase
     (List.reverse_perm ruleBase) 30 70⟩

/-! ### Evaluation facts feeding the origin scenario (C3) -/

/-- Each rule's firing strength is the minimum of its two atom degrees. -/
lemma fire1_eq (t h : ℚ) : fireStrength rule1 t h = min (cold t) (dry h) := rfl

lemma fire2_eq (t h : ℚ) : fireStrength rule2 t h = min (cold t) (comfort h) := rfl

lemma fire3_eq (t h : ℚ) : fireStrength rule3 t h = min (cold t) (wet h) := rfl

lemma fire4_eq (t h : ℚ) : fireStrength rule4 t h = min (warm t) (dry h) := rfl

lemma fire5_eq (t h : ℚ) : fireStrength rule5 t h = min (warm t) (comfort h) := rfl

lemma fire6_eq (t h : ℚ) : fireStrength rule6 t h = min (warm t) (wet h) := rfl

lemma fire7_eq (t h : ℚ) : fireStrength rule7 t h = min (hot t) (dry h) := rfl

lemma fire8_eq (t h : ℚ) : fireStrength rule8 t h = min (hot t) (comfort h) := rfl

lemma fire9_eq (t h : ℚ) : fireStrength rule9 t h = min (hot t) (wet h) := rfl

/-- Membership degrees of the three temperature terms at 0. -/
lemma cold_zero : cold 0 = 1 := by norm_num [cold, trimf]

lemma warm_zero : warm 0 = 0 := by norm_num [warm, trimf]

lemma hot_zero : hot 0 = 0 := by norm_num [hot, trimf]

/-- Pointwise bounds for the fan-speed terms. -/
lemma low_nonneg (x : ℚ) : 0 ≤ low x := trimf_nonneg _ _ _ _

lemma low_le_one (x : ℚ) : low x ≤ 1 := trimf_le_one _ _ _ _

lemma medium_nonneg (x : ℚ) : 0 ≤ medium x := trimf_nonneg _ _ _ _

lemma high_nonneg (x : ℚ) : 0 ≤ high x := trimf_nonneg _ _ _ _

/-- Firing strengths of the nine rules at input `(0, 0)`: only rule 1
fires, at full strength. -/
lemma fire1_origin : fireStrength rule1 0 0 = 1 := by
  rw [fire1_eq]
  show min (cold 0) (cold 0) = 1
  rw [cold_zero, min_self]

lemma fire2_origin : fireStrength rule2 0 0 = 0 := by
  rw [fire2_eq]
  show min (cold 0) (warm 0) = 0
  rw [cold_zero, warm_zero]
  norm_num

lemma fire3_origin : fireStrength rule3 0 0 = 0 := by
  rw [fire3_eq]
  show min (cold 0) (hot 0) = 0
  rw [cold_zero, hot_zero]
  norm_num

lemma fire4_origin : fireStrength rule4 0 0 = 0 := by
  rw [fire4_eq]
  show min (warm 0) (cold 0) = 0
  rw [cold_zero, warm_zero]
  norm_num

lemma fire5_origin : fireStrength rule5 0 0 = 0 := by
  rw [fire5_eq]
  show min (warm 0) (warm 0) = 0
  rw [warm_zero, min_self]

lemma fire6_origin : fireStrength rule6 0 0 = 0 := by
  rw [fire6_eq]
  show min (warm 0) (hot 0) = 0
  rw [warm_zero, hot_zero, min_self]

lemma fire7_origin : fireStrength rule7 0 0 = 0 := by
  rw [fire7_eq]
  show min (hot 0) (cold 0) = 0
  rw [cold_zero, hot_zero]
  norm_num

lemma fire8_origin : fireStrength rule8 0 0 = 0 := by
  rw [fire8_eq]
  show min (hot 0) (warm 0) = 0
  rw [warm_zero, hot_zero, min_self]

lemma fire9_origin : fireStrength rule9 0 0 = 0 := by
  rw [fire9_eq]
  show min (hot 0) (hot 0) = 0
  rw [hot_zero, min_self]

/-- Per-rule contributions to the aggregated curve at input `(0, 0)`. -/
lemma contrib1_origin (x : ℚ) :
    min (fireStrength rule1 0 0) (fanMF rule1.consequent x) = low x := by
  rw [fire1_origin]
  show min 1 (low x) = low x
  exact min_eq_right (low_le_one x)

lemma contrib2_origin (x : ℚ) :
    min (fireStrength rule2 0 0) (fanMF rule2.consequent x) = 0 := by
  rw [fire2_origin]
  show min 0 (low x) = 0
  exact min_eq_left (low_nonneg x)

lemma contrib3_origin (x : ℚ) :
    min (fireStrength rule3 0 0) (fanMF rule3.consequent x) = 0 := by
  rw [fire3_origin]
  show min 0 (medium x) = 0
  exact min_eq_left (medium_nonneg x)

lemma contrib4_origin (x : ℚ) :
    min (fireStrength rule4 0 0) (fanMF rule4.consequent x) = 0 := by
  rw [fire4_origin]
  show min 0 (low x) = 0
  exact min_eq_left (low_nonneg x)

lemma contrib5_origin (x : ℚ) :
    min (fireStrength rule5 0 0) (fanMF rule5.consequent x) = 0 := by
  rw [fire5_origin]
  show min 0 (medium x) = 0
  exact min_eq_left (medium_nonneg x)

lemma contrib6_origin (x : ℚ) :
    min (fireStrength rule6 0 0) (fanMF rule6.consequent x) = 0 := by
  rw [fire6_origin]
  show min 0 (high x) = 0
  exact min_eq_left (high_nonneg x)

lemma contrib7_origin (x : ℚ) :
    min (fireStrength rule7 0 0) (fanMF rule7.consequent x) = 0 := by
  rw [fire7_origin]
  show min 0 (medium x) = 0
  exact min_eq_left (medium_nonneg x)

lemma contrib8_origin (x : ℚ) :
    min (fireStrength rule8 0 0) (fanMF rule8.consequent x) = 0 := by
  rw [fire8_origin]
  show min 0 (high x) = 0
  exact min_eq_left (high_nonneg x)

lemma contrib9_origin (x : ℚ) :
    min (fireStrength rule9 0 0) (fanMF rule9.consequent x) = 0 := by
  rw [fire9_origin]
  show min 0 (high x) = 0
  exact min_eq_left (high_nonneg x)

/-- At input `(0, 0)` the aggregated output curve is exactly the `Low`
shape, unclipped (rule 1 fires at strength 1, every other rule at 0). -/
lemma aggregate_origin (x : ℚ) : aggregate ruleBase 0 0 x = low x := by
  unfold aggregate ruleBase
  simp only [List.map_cons, List.map_nil, List.foldr_cons, List.foldr_nil,
    contrib1_origin, contrib2_origin, contrib3_origin, contrib4_origin,
    contrib5_origin, contrib6_origin, contrib7_origin, contrib8_origin,
    contrib9_origin, max_self]
  exact max_eq_left (low_nonneg x)

/-- Closed form of the `Low` shape at universe points up to its support
end: a falling ramp from 1 at 0 to 0 at 50. -/
lemma low_nat_small (n : ℕ) (hn : n ≤ 50) : low (n : ℚ) = (50 - (n : ℚ)) / 50 := by
  rcases Nat.eq_zero_or_pos n with h0 | hpos
  · subst h0
    norm_num [low, trimf]
  · have h1 : (0 : ℚ) < n := by exact_mod_cast hpos
    rcases eq_or_lt_of_le hn with h50 | hlt
    · have : (n : ℚ) = 50 := by exact_mod_cast h50
      rw [this]
      norm_num [low, trimf]
    · have h2 : (n : ℚ) < 50 := by exact_mod_cast hlt
      unfold low trimf
      rw [if_neg (ne_of_gt h1), if_neg (by rintro ⟨-, hb⟩; linarith),
        if_pos ⟨h1, h2⟩]
      norm_num

/-- The `Low` shape vanishes at universe points from 50 on. -/
lemma low_nat_big (n : ℕ) (hn : 50 ≤ n) : low (n : ℚ) = 0 := by
  have h1 : (50 : ℚ) ≤ n := by exact_mod_cast hn
  unfold low trimf
  rw [if_neg (by intro h; rw [h] at h1; linarith),
    if_neg (by rintro ⟨-, hb⟩; linarith), if_neg (by rintro ⟨-, hb⟩; linarith)]

/-- The sum of the natural numbers below 51 and of their squares. -/
lemma sum_id_51 : (∑ i ∈ Finset.range 51, (i : ℚ)) = 1275 := by
  rw [← Nat.cast_sum]
  norm_num

lemma sum_sq_51 : (∑ i ∈ Finset.range 51, (i : ℚ) * (i : ℚ)) = 42925 := by
  have h : (∑ i ∈ Finset.range 51, (i : ℚ) * (i : ℚ)) =
      ((∑ i ∈ Finset.range 51, i * i : ℕ) : ℚ) := by
    rw [Nat.cast_sum]
    push_cast
    rfl
  rw [h]
  norm_num

/-- The centroid denominator of the unclipped `Low` shape over the
discretized universe. -/
lemma centroidDen_low : centroidDen low = 51 / 2 := by
  unfold centroidDen
  rw [← Finset.sum_subset (Finset.range_subset.mpr (by norm_num : 51 ≤ 101))
    (fun n _ hn => low_nat_big n (by
      rcases Nat.lt_or_ge n 51 with h | h
      · exact absurd (Finset.mem_range.mpr h) hn
      · omega))]
  rw [Finset.sum_congr rfl
    (fun n hn => low_nat_small n (Nat.lt_succ_iff.mp (Finset.mem_range.mp hn)))]
  rw [← Finset.sum_div, Finset.sum_sub_distrib, Finset.sum_const,
    Finset.card_range, sum_id_51]
  norm_num

/-- The centroid numerator of the unclipped `Low` shape over the
discretized universe. -/
lemma centroidNum_low : centroidNum low = 833 / 2 := by
  unfold centroidNum
  rw [← Finset.sum_subset (Finset.range_subset.mpr (by norm_num : 51 ≤ 101))
    (fun n _ hn => by
      rw [low_nat_big n (by
        rcases Nat.lt_or_ge n 51 with h | h
        · exact absurd (Finset.mem_range.mpr h) hn
        · omega), mul_zero])]
  rw [Finset.sum_congr rfl (fun n hn => by
    rw [low_nat_small n (Nat.lt_succ_iff.mp (Finset.mem_range.mp hn)),
      ← mul_div_assoc])]
  rw [← Finset.sum_div]
  have hexp : (∑ n ∈ Finset.range 51, (n : ℚ) * (50 - (n : ℚ))) =
      50 * (∑ n ∈ Finset.range 51, (n : ℚ)) -
        (∑ n ∈ Finset.range 51, (n : ℚ) * (n : ℚ)) := by
    rw [Finset.mul_sum, ← Finset.sum_sub_distrib]
    exact Finset.sum_congr rfl (fun n _ => by ring)
  rw [hexp, sum_id_51, sum_sq_51]
  norm_num

/-- The unclipped centroid of the `Low` shape is `49/3 ≈ 16.33`. -/
lemma centroidE_low : centroidE low = .ok (49 / 3) := by
  unfold centroidE
  rw [centroidDen_low, centroidNum_low, if_neg (by norm_num)]
  have : (833 : ℚ) / 2 / (51 / 2) = 49 / 3 := by norm_num
  rw [this]

/-- C3: at input `temperature = 0`, `humidity = 0`, only rule 1
(`Cold & Dry → Low`) fires, at strength 1; every other rule fires at
strength 0; the evaluation's crisp fan-speed output is exactly the
unclipped centroid of the `Low` shape over the 1-unit-resolution universe,
namely `49/3`, which is within 1 of 16.67. -/
theorem scenario_cold_dry_origin :
    fireStrength rule1 0 0 = 1 ∧
    (fireStrength rule2 0 0 = 0 ∧ fireStrength rule3 0 0 = 0 ∧
     fireStrength rule4 0 0 = 0 ∧ fireStrength rule5 0 0 = 0 ∧
     fireStrength rule6 0 0 = 0 ∧ fireStrength rule7 0 0 = 0 ∧
     fireStrength rule8 0 0 = 0 ∧ fireStrength rule9 0 0 = 0) ∧
    computeSystem ruleBase 0 0 = centroidE low ∧
    centroidE low = .ok (49 / 3) ∧
    |(49 : ℚ) / 3 - 1667 / 100| ≤ 1 := by
  refine ⟨fire1_origin,
    ⟨fire2_origin, fire3_origin, fire4_origin, fire5_origin, fire6_origin,
     fire7_origin, fire8_origin, fire9_origin⟩, ?_, centroidE_low, by
      rw [abs_sub_le_iff]
      constructor <;> norm_num⟩
  show centroidE (aggregate ruleBase 0 0) = centroidE low
  exact congrArg centroidE (funext aggregate_origin)

/-! ### Coverage of the universes by the term partitions (C9) -/

/-- The `Cold` shape is positive on `[0, 50)`. -/
lemma cold_pos (x : ℚ) (h0 : 0 ≤ x) (h50 : x < 50) : 0 < cold x := by
  unfold cold trimf
  rcases eq_or_lt_of_le h0 with h | h
  · rw [if_pos h.symm]
    norm_num
  · rw [if_neg (ne_of_gt h), if_neg (by rintro ⟨-, hb⟩; linarith),
      if_pos ⟨h, h50⟩]
    exact div_pos (by linarith) (by norm_num)

/-- The `Warm` shape is positive on `(25, 75)`. -/
lemma warm_pos (x : ℚ) (h25 : 25 < x) (h75 : x < 75) : 0 < warm x := by
  unfold warm trimf
  rcases lt_trichotomy x 50 with h | h | h
  · rw [if_neg (ne_of_lt h), if_pos ⟨h25, h⟩]
    exact div_pos (by linarith) (by norm_num)
  · rw [if_pos h]
    norm_num
  · rw [if_neg (ne_of_gt h), if_neg (by rintro ⟨-, hb⟩; linarith),
      if_pos ⟨h, h75⟩]
    exact div_pos (by linarith) (by norm_num)

/-- The `Hot` shape is positive on `(50, 100]`. -/
lemma hot_pos (x : ℚ) (h50 : 50 < x) (h100 : x ≤ 100) : 0 < hot x := by
  unfold hot trimf
  rcases eq_or_lt_of_le h100 with h | h
  · rw [if_pos h]
    norm_num
  · rw [if_neg (ne_of_lt h), if_pos ⟨h50, h⟩]
    exact div_pos (by linarith) (by norm_num)

/-- The three terms of an input variable jointly cover `[0, 100]`: at every
in-range point at least one of them has positive degree. -/
lemma term_cover (x : ℚ) (h0 : 0 ≤ x) (h100 : x ≤ 100) :
    0 < cold x ∨ 0 < warm x ∨ 0 < hot x := by
  rcases lt_trichotomy x 50 with h | h | h
  · exact Or.inl (cold_pos x h0 h)
  · exact Or.inr (Or.inl (warm_pos x (by linarith) (by linarith)))
  · exact Or.inr (Or.inr (hot_pos x h h100))

/-- Peaks of the fan-speed terms on the discretized universe. -/
lemma low_peak : low 0 = 1 := by norm_num [low, trimf]

lemma medium_peak : medium 50 = 1 := by norm_num [medium, trimf]

lemma high_peak : high 100 = 1 := by norm_num [high, trimf]

/-- Folding `max` from 0 over any list of rationals is nonnegative. -/
lemma foldr_max_nonneg (l : List ℚ) : 0 ≤ l.foldr max 0 := by
  induction l with
  | nil => exact le_refl 0
  | cons b l ih => exact le_trans ih (le_max_right b _)

/-- Every member of a list bounds the `max`-fold from below. -/
lemma le_foldr_max (l : List ℚ) (a : ℚ) (ha : a ∈ l) : a ≤ l.foldr max 0 := by
  induction l with
  | nil => cases ha
  | cons b l ih =>
      rcases List.mem_cons.mp ha with rfl | hmem
      · exact le_max_left a _
      · exact le_trans (ih hmem) (le_max_right b _)

/-- The aggregated curve is nonnegative everywhere. -/
lemma aggregate_nonneg (rules : List Rule) (t h x : ℚ) :
    0 ≤ aggregate rules t h x :=
  foldr_max_nonneg _

/-- A member rule's clipped contribution bounds the aggregated curve. -/
lemma contribution_le_aggregate {rules : List Rule} {r : Rule}
    (hr : r ∈ rules) (t h x : ℚ) :
    min (fireStrength r t h) (fanMF r.consequent x) ≤ aggregate rules t h x :=
  le_foldr_max _ _
    (List.mem_map_of_mem (fun r => min (fireStrength r t h) (fanMF r.consequent x)) hr)

/-- For every in-range input pair some rule of the base fires positively AND
its consequent term peaks at a universe point, giving the aggregated curve a
strictly positive value there. -/
lemma exists_active_contribution (t h : ℚ) (ht0 : 0 ≤ t) (ht1 : t ≤ 100)
    (hh0 : 0 ≤ h) (hh1 : h ≤ 100) :
    ∃ r ∈ ruleBase, ∃ p : ℕ, p < 101 ∧
      0 < min (fireStrength r t h) (fanMF r.consequent (p : ℚ)) := by
  rcases term_cover t ht0 ht1 with hT | hT | hT <;>
    rcases term_cover h hh0 hh1 with hH | hH | hH
  · refine ⟨rule1, by simp [ruleBase], 0, by norm_num, ?_⟩
    refine lt_min ?_ ?_
    · rw [fire1_eq]
      exact lt_min hT hH
    · show (0 : ℚ) < low ((0 : ℕ) : ℚ)
      rw [Nat.cast_zero, low_peak]
      norm_num
  · refine ⟨rule2, by simp [ruleBase], 0, by norm_num, ?_⟩
    refine lt_min ?_ ?_
    · rw [fire2_eq]
      exact lt_min hT hH
    · show (0 : ℚ) < low ((0 : ℕ) : ℚ)
      rw [Nat.cast_zero, low_peak]
      norm_num
  · refine ⟨rule3, by simp [ruleBase], 50, by norm_num, ?_⟩
    refine lt_min ?_ ?_
    · rw [fire3_eq]
      exact lt_min hT hH
    · show (0 : ℚ) < medium ((50 : ℕ) : ℚ)
      rw [show (((50 : ℕ) : ℚ)) = 50 by norm_num, medium_peak]
      norm_num
  · refine ⟨rule4, by simp [ruleBase], 0, by norm_num, ?_⟩
    refine lt_min ?_ ?_
    · rw [fire4_eq]
      exact lt_min hT hH
    · show (0 : ℚ) < low ((0 : ℕ) : ℚ)
      rw [Nat.cast_zero, low_peak]
      norm_num
  · refine ⟨rule5, by simp [ruleBase], 50, by norm_num, ?_⟩
    refine lt_min ?_ ?_
    · rw [fire5_eq]
      exact lt_min hT hH
    · show (0 : ℚ) < medium ((50 : ℕ) : ℚ)
      rw [show (((50 : ℕ) : ℚ)) = 50 by norm_num, medium_peak]
      norm_num
  · refine ⟨rule6, by simp [ruleBase], 100, by norm_num, ?_⟩
    refine lt_min ?_ ?_
    · rw [fire6_eq]
      exact lt_min hT hH
    · show (0 : ℚ) < high ((100 : ℕ) : ℚ)
      rw [show (((100 : ℕ) : ℚ)) = 100 by norm_num, high_peak]
      norm_num
  · refine ⟨rule7, by simp [ruleBase], 50, by norm_num, ?_⟩
    refine lt_min ?_ ?_
    · rw [fire7_eq]
      exact lt_min hT hH
    · show (0 : ℚ) < medium ((50 : ℕ) : ℚ)
      rw [show (((50 : ℕ) : ℚ)) = 50 by norm_num, medium_peak]
      norm_num
  · refine ⟨rule8, by simp [ruleBase], 100, by norm_num, ?_⟩
    refine lt_min ?_ ?_
    · rw [fire8_eq]
      exact lt_min hT hH
    · show (0 : ℚ) < high ((100 : ℕ) : ℚ)
      rw [show (((100 : ℕ) : ℚ)) = 100 by norm_num, high_peak]
      norm_num
  · refine ⟨rule9, by simp [ruleBase], 100, by norm_num, ?_⟩
    refine lt_min ?_ ?_
    · rw [fire9_eq]
      exact lt_min hT hH
    · show (0 : ℚ) < high ((100 : ℕ) : ℚ)
      rw [show (((100 : ℕ) : ℚ)) = 100 by norm_num, high_peak]
      norm_num

/-- For in-range inputs the centroid denominator is strictly positive. -/
lemma centroidDen_pos (t h : ℚ) (ht0 : 0 ≤ t) (ht1 : t ≤ 100)
    (hh0 : 0 ≤ h) (hh1 : h ≤ 100) :
    0 < centroidDen (aggregate ruleBase t h) := by
  obtain ⟨r, hrmem, p, hp, hpos⟩ :=
    exists_active_contribution t h ht0 ht1 hh0 hh1
  have hagg : 0 < aggregate ruleBase t h (p : ℚ) :=
    lt_of_lt_of_le hpos (contribution_le_aggregate hrmem t h _)
  exact lt_of_lt_of_le hagg
    (Finset.single_le_sum (f := fun n : ℕ => aggregate ruleBase t h (n : ℚ))
      (fun n _ => aggregate_nonneg ruleBase t h _) (Finset.mem_range.mpr hp))

/-- C9: for every input pair inside the universes `[0,100] × [0,100]`, at
least one of the nine rules fires with strictly positive strength (the
three terms of each input variable cover its universe and all nine term
combinations appear as antecedents), so the evaluation defuzzifies to a
crisp fan-speed output and `NoActiveRules` is unreachable in range. -/
theorem inrange_input_always_fires (t h : ℚ) (ht0 : 0 ≤ t) (ht1 : t ≤ 100)
    (hh0 : 0 ≤ h) (hh1 : h ≤ 100) :
    (∃ r ∈ ruleBase, 0 < fireStrength r t h) ∧
    ∃ v, computeSystem ruleBase t h = .ok v := by
  obtain ⟨r, hrmem, p, hp, hpos⟩ :=
    exists_active_contribution t h ht0 ht1 hh0 hh1
  refine ⟨⟨r, hrmem, lt_of_lt_of_le hpos (min_le_left _ _)⟩, ?_⟩
  have hden := centroidDen_pos t h ht0 ht1 hh0 hh1
  refine ⟨centroidNum (aggregate ruleBase t h) /
    centroidDen (aggregate ruleBase t h), ?_⟩
  unfold computeSystem centroidE
  rw [if_neg (ne_of_gt hden)]

/-- Witness for C9 at input `(30, 70)`: some rule fires positively and the
evaluation returns a crisp output. -/
theorem inrange_input_always_fires_witness :
    (∃ r ∈ ruleBase, 0 < fireStrength r 30 70) ∧
    ∃ v, computeSystem ruleBase 30 70 = .ok v :=
  inrange_input_always_fires 30 70 (by norm_num) (by norm_num) (by norm_num)
    (by norm_num)

/-! ### Mirror symmetry of the shapes about 50 (C10) -/

/-- The `Hot` shape is the mirror image of the `Cold` shape about 50. -/
lemma hot_reflect (x : ℚ) : hot (100 - x) = cold x := by
  by_cases hx : x = 0
  · subst hx
    norm_num [hot, cold, trimf]
  · by_cases hlo : 0 < x ∧ x < 50
    · obtain ⟨h1, h2⟩ := hlo
      unfold hot cold trimf
      rw [if_neg (fun hc => hx (by linarith)),
        if_pos ⟨by linarith, by linarith⟩, if_neg hx,
        if_neg (by rintro ⟨hb1, hb2⟩; linarith), if_pos ⟨h1, h2⟩]
      ring_nf
    · have hcase : x < 0 ∨ 50 ≤ x := by
        rcases not_and_or.mp hlo with hc | hc
        · exact Or.inl (lt_of_le_of_ne (not_lt.mp hc) hx)
        · exact Or.inr (not_lt.mp hc)
      unfold hot cold trimf
      rw [if_neg (fun hc => hx (by linarith)),
        if_neg (by rintro ⟨hb1, hb2⟩; rcases hcase with hc | hc <;> linarith),
        if_neg (by rintro ⟨hb1, hb2⟩; linarith), if_neg hx,
        if_neg (by rintro ⟨hb1, hb2⟩; linarith),
        if_neg (by rintro ⟨hb1, hb2⟩; rcases hcase with hc | hc <;> linarith)]

/-- The `Cold` shape is the mirror image of the `Hot` shape about 50. -/
lemma cold_reflect (x : ℚ) : cold (100 - x) = hot x := by
  have h := hot_reflect (100 - x)
  rw [show (100 : ℚ) - (100 - x) = x by ring] at h
  exact h.symm

/-- The `Warm` shape is its own mirror image about 50. -/
lemma warm_reflect (x : ℚ) : warm (100 - x) = warm x := by
  by_cases hx : x = 50
  · subst hx
    norm_num [warm, trimf]
  · by_cases hlo : 25 < x ∧ x < 50
    · obtain ⟨h1, h2⟩ := hlo
      unfold warm trimf
      rw [if_neg (fun hc => hx (by linarith)),
        if_neg (by rintro ⟨hb1, hb2⟩; linarith),
        if_pos (⟨by linarith, by linarith⟩ : 50 < 100 - x ∧ 100 - x < 75),
        if_neg hx, if_pos ⟨h1, h2⟩]
      ring_nf
    · by_cases hhi : 50 < x ∧ x < 75
      · obtain ⟨h1, h2⟩ := hhi
        unfold warm trimf
        rw [if_neg (fun hc => hx (by linarith)),
          if_pos (⟨by linarith, by linarith⟩ : 25 < 100 - x ∧ 100 - x < 50),
          if_neg hx, if_neg (by rintro ⟨hb1, hb2⟩; linarith),
          if_pos ⟨h1, h2⟩]
        ring_nf
      · have hcase : x ≤ 25 ∨ 75 ≤ x := by
          rcases le_or_lt x 25 with hc | hc
          · exact Or.inl hc
          · rcases not_and_or.mp hlo with hd | hd
            · exact absurd hc hd
            · have h50 : 50 ≤ x := not_lt.mp hd
              rcases not_and_or.mp hhi with he | he
              · exact absurd (lt_of_le_of_ne h50 (fun he' => hx he'.symm)) he
              · exact Or.inr (not_lt.mp he)
        unfold warm trimf
        rw [if_neg (fun hc => hx (by linarith)),
          if_neg (by rintro ⟨hb1, hb2⟩; rcases hcase with hc | hc <;> linarith),
          if_neg (by rintro ⟨hb1, hb2⟩; rcases hcase with hc | hc <;> linarith),
          if_neg hx,
          if_neg (by rintro ⟨hb1, hb2⟩; rcases hcase with hc | hc <;> linarith),
          if_neg (by rintro ⟨hb1, hb2⟩; rcases hcase with hc | hc <;> linarith)]

/-- Reflecting both inputs swaps each rule's clipped contribution with that
of its mirror rule (1↔9, 2↔8, 3↔7, 4↔6, 5 fixed), evaluated at the
reflected universe point. -/
lemma contribR1 (t h x : ℚ) :
    min (fireStrength rule1 (100 - t) (100 - h)) (fanMF rule1.consequent x) =
      min (fireStrength rule9 t h) (fanMF rule9.consequent (100 - x)) := by
  rw [fire1_eq, fire9_eq]
  show min (min (cold (100 - t)) (cold (100 - h))) (cold x) =
    min (min (hot t) (hot h)) (hot (100 - x))
  rw [cold_reflect t, cold_reflect h, hot_reflect x]

lemma contribR2 (t h x : ℚ) :
    min (fireStrength rule2 (100 - t) (100 - h)) (fanMF rule2.consequent x) =
      min (fireStrength rule8 t h) (fanMF rule8.consequent (100 - x)) := by
  rw [fire2_eq, fire8_eq]
  show min (min (cold (100 - t)) (warm (100 - h))) (cold x) =
    min (min (hot t) (warm h)) (hot (100 - x))
  rw [cold_reflect t, warm_reflect h, hot_reflect x]

lemma contribR3 (t h x : ℚ) :
    min (fireStrength rule3 (100 - t) (100 - h)) (fanMF rule3.consequent x) =
      min (fireStrength rule7 t h) (fanMF rule7.consequent (100 - x)) := by
  rw [fire3_eq, fire7_eq]
  show min (min (cold (100 - t)) (hot (100 - h))) (warm x) =
    min (min (hot t) (cold h)) (warm (100 - x))
  rw [cold_reflect t, hot_reflect h, warm_reflect x]

lemma contribR4 (t h x : ℚ) :
    min (fireStrength rule4 (100 - t) (100 - h)) (fanMF rule4.consequent x) =
      min (fireStrength rule6 t h) (fanMF rule6.consequent (100 - x)) := by
  rw [fire4_eq, fire6_eq]
  show min (min (warm (100 - t)) (cold (100 - h))) (cold x) =
    min (min (warm t) (hot h)) (hot (100 - x))
  rw [warm_reflect t, cold_reflect h, hot_reflect x]

lemma contribR5 (t h x : ℚ) :
    min (fireStrength rule5 (100 - t) (100 - h)) (fanMF rule5.consequent x) =
      min (fireStrength rule5 t h) (fanMF rule5.consequent (100 - x)) := by
  rw [fire5_eq, fire5_eq]
  show min (min (warm (100 - t)) (warm (100 - h))) (warm x) =
    min (min (warm t) (warm h)) (warm (100 - x))
  rw [warm_reflect t, warm_reflect h, warm_reflect x]

lemma contribR6 (t h x : ℚ) :
    min (fireStrength rule6 (100 - t) (100 - h)) (fanMF rule6.consequent x) =
      min (fireStrength rule4 t h) (fanMF rule4.consequent (100 - x)) := by
  rw [fire6_eq, fire4_eq]
  show min (min (warm (100 - t)) (hot (100 - h))) (hot x) =
    min (min (warm t) (cold h)) (cold (100 - x))
  rw [warm_reflect t, hot_reflect h, cold_reflect x]

lemma contribR7 (t h x : ℚ) :
    min (fireStrength rule7 (100 - t) (100 - h)) (fanMF rule7.consequent x) =
      min (fireStrength rule3 t h) (fanMF rule3.consequent (100 - x)) := by
  rw [fire7_eq, fire3_eq]
  show min (min (hot (100 - t)) (cold (100 - h))) (warm x) =
    min (min (cold t) (hot h)) (warm (100 - x))
  rw [hot_reflect t, cold_reflect h, warm_reflect x]

lemma contribR8 (t h x : ℚ) :
    min (fireStrength rule8 (100 - t) (100 - h)) (fanMF rule8.consequent x) =
      min (fireStrength rule2 t h) (fanMF rule2.consequent (100 - x)) := by
  rw [fire8_eq, fire2_eq]
  show min (min (hot (100 - t)) (warm (100 - h))) (hot x) =
    min (min (cold t) (warm h)) (cold (100 - x))
  rw [hot_reflect t, warm_reflect h, cold_reflect x]

lemma contribR9 (t h x : ℚ) :
    min (fireStrength rule9 (100 - t) (100 - h)) (fanMF rule9.consequent x) =
      min (fireStrength rule1 t h) (fanMF rule1.consequent (100 - x)) := by
  rw [fire9_eq, fire1_eq]
  show min (min (hot (100 - t)) (hot (100 - h))) (hot x) =
    min (min (cold t) (cold h)) (cold (100 - x))
  rw [hot_reflect t, hot_reflect h, cold_reflect x]

set_option maxRecDepth 8000 in
/-- Reflecting both inputs reflects the aggregated output curve about 50:
the mirrored rule base is a permutation of the original one. -/
lemma aggregate_reflect (t h x : ℚ) :
    aggregate ruleBase (100 - t) (100 - h) x =
      aggregate ruleBase t h (100 - x) := by
  unfold aggregate ruleBase
  simp only [List.map_cons, List.map_nil, contribR1, contribR2, contribR3,
    contribR4, contribR5, contribR6, contribR7, contribR8, contribR9]
  exact foldr_max_perm (List.reverse_perm
    [min (fireStrength rule1 t h) (fanMF rule1.consequent (100 - x)),
     min (fireStrength rule2 t h) (fanMF rule2.consequent (100 - x)),
     min (fireStrength rule3 t h) (fanMF rule3.consequent (100 - x)),
     min (fireStrength rule4 t h) (fanMF rule4.consequent (100 - x)),
     min (fireStrength rule5 t h) (fanMF rule5.consequent (100 - x)),
     min (fireStrength rule6 t h) (fanMF rule6.consequent (100 - x)),
     min (fireStrength rule7 t h) (fanMF rule7.consequent (100 - x)),
     min (fireStrength rule8 t h) (fanMF rule8.consequent (100 - x)),
     min (fireStrength rule9 t h) (fanMF rule9.consequent (100 - x))]) 0

/-- Reflecting the index about 50 permutes the 101 universe points. -/
lemma sum_range101_reflect (g : ℕ → ℚ) :
    ∑ n ∈ Finset.range 101, g (100 - n) = ∑ n ∈ Finset.range 101, g n := by
  have h := Finset.sum_range_reflect g 101
  simpa using h

/-- The centroid denominator is invariant under reflecting both inputs. -/
lemma centroidDen_reflect (t h : ℚ) :
    centroidDen (aggregate ruleBase (100 - t) (100 - h)) =
      centroidDen (aggregate ruleBase t h) := by
  unfold centroidDen
  calc ∑ n ∈ Finset.range 101, aggregate ruleBase (100 - t) (100 - h) (n : ℚ)
      = ∑ n ∈ Finset.range 101,
          aggregate ruleBase t h (((100 - n : ℕ) : ℚ)) := by
        refine Finset.sum_congr rfl (fun n hn => ?_)
        have hle : n ≤ 100 := Nat.lt_succ_iff.mp (Finset.mem_range.mp hn)
        rw [aggregate_reflect, Nat.cast_sub hle]
        norm_num
    _ = ∑ n ∈ Finset.range 101, aggregate ruleBase t h ((n : ℚ)) :=
        sum_range101_reflect (fun k => aggregate ruleBase t h ((k : ℚ)))

/-- The centroid numerator reflects: reflected inputs turn `Σ x·curve(x)`
into `Σ (100−x)·curve(x)` of the original curve. -/
lemma centroidNum_reflect (t h : ℚ) :
    centroidNum (aggregate ruleBase (100 - t) (100 - h)) =
      100 * centroidDen (aggregate ruleBase t h) -
        centroidNum (aggregate ruleBase t h) := by
  unfold centroidNum centroidDen
  calc ∑ n ∈ Finset.range 101,
        (n : ℚ) * aggregate ruleBase (100 - t) (100 - h) (n : ℚ)
      = ∑ n ∈ Finset.range 101, (fun k : ℕ =>
          ((100 - k : ℕ) : ℚ) * aggregate ruleBase t h ((k : ℚ))) (100 - n) := by
        refine Finset.sum_congr rfl (fun n hn => ?_)
        have hle : n ≤ 100 := Nat.lt_succ_iff.mp (Finset.mem_range.mp hn)
        simp only [Nat.sub_sub_self hle]
        rw [aggregate_reflect, Nat.cast_sub hle]
        norm_num
    _ = ∑ n ∈ Finset.range 101,
          ((100 - n : ℕ) : ℚ) * aggregate ruleBase t h ((n : ℚ)) :=
        sum_range101_reflect
          (fun k => ((100 - k : ℕ) : ℚ) * aggregate ruleBase t h ((k : ℚ)))
    _ = ∑ n ∈ Finset.range 101,
          (100 - (n : ℚ)) * aggregate ruleBase t h ((n : ℚ)) := by
        refine Finset.sum_congr rfl (fun n hn => ?_)
        have hle : n ≤ 100 := Nat.lt_succ_iff.mp (Finset.mem_range.mp hn)
        rw [Nat.cast_sub hle]
        norm_num
    _ = 100 * (∑ n ∈ Finset.range 101, aggregate ruleBase t h (n : ℚ)) -
          ∑ n ∈ Finset.range 101, (n : ℚ) * aggregate ruleBase t h (n : ℚ) := by
        rw [Finset.mul_sum, ← Finset.sum_sub_distrib]
        exact Finset.sum_congr rfl (fun n _ => by ring)

/-- C10: the control system is mirror-symmetric — the shapes on each
variable are reflections of one another about 50 (`Hot`/`Cold` swap,
`Warm` is self-mirrored; the humidity and fan-speed registries reuse the
same three shapes) and the rule base maps mirrored antecedents to mirrored
consequents, so for every in-range input pair the crisp output satisfies
`output(100−t, 100−h) = 100 − output(t, h)`. -/
theorem mirror_symmetric_output (t h : ℚ) (ht0 : 0 ≤ t) (ht1 : t ≤ 100)
    (hh0 : 0 ≤ h) (hh1 : h ≤ 100) :
    (∀ x : ℚ, hot (100 - x) = cold x ∧ warm (100 - x) = warm x) ∧
    ∃ v, computeSystem ruleBase t h = .ok v ∧
      computeSystem ruleBase (100 - t) (100 - h) = .ok (100 - v) := by
  refine ⟨fun x => ⟨hot_reflect x, warm_reflect x⟩, ?_⟩
  have hden := centroidDen_pos t h ht0 ht1 hh0 hh1
  have hD : centroidDen (aggregate ruleBase t h) ≠ 0 := ne_of_gt hden
  refine ⟨centroidNum (aggregate ruleBase t h) /
    centroidDen (aggregate ruleBase t h), ?_, ?_⟩
  · unfold computeSystem centroidE
    rw [if_neg hD]
  · unfold computeSystem centroidE
    rw [centroidDen_reflect, centroidNum_reflect, if_neg hD]
    congr 1
    field_simp

/-- Witness for C10 at input `(20, 30)`: the evaluation there and at the
mirrored input `(80, 70)` produce outputs summing to 100. -/
theorem mirror_symmetric_output_witness :
    ∃ v, computeSystem ruleBase 20 30 = .ok v ∧
      computeSystem ruleBase (100 - 20) (100 - 30) = .ok (100 - v) :=
  (mirror_symmetric_output 20 30 (by norm_num) (by norm_num) (by norm_num)
    (by norm_num)).2

end TempControl
